import Mathlib

/-!
Verification development for the cdk transactional persistence layer
(the wallet storage engine exposed through the cdk-ffi bindings).

The engine itself lives in the Rust crates of the repository; the Python
files under the ffi test directory exercise it.  The definitions below are
a shallow embedding of the storage engine: the namespaced key-value store,
the domain repositories (mints, keysets, counters, proofs) and the
single-writer transaction manager, each modelled from the specification
of the engine and matched against the observable behaviour the ffi tests
pin down.
-/

namespace Cdk

/-- Byte sequences, modelled as lists of byte values. -/
abbrev Bytes := List (Fin 256)

/-- Modelled from the spec: the unique identity of a namespaced entry is the
`(domain, namespace, key)` triple (`namespace` is spelled `nspace` here). -/
structure Triple where
  domain : String
  nspace : String
  key : String
deriving DecidableEq, Repr

/-- Modelled from the spec: a keyset record as exposed through the ffi
(`KeySetInfo(id, unit, active, input_fee_ppk)`). -/
structure KeySetInfo where
  id : String
  unit : String
  active : Bool
  input_fee_ppk : Nat
deriving DecidableEq, Repr

/-- Modelled from the spec: an unspent-token record keyed by its public
Y value. -/
structure ProofRec where
  y : String
  amount : Nat
deriving DecidableEq, Repr

/-- Modelled from the spec: the durable state of the wallet store — the
generic namespaced key-value area plus the domain tables (mints, keysets
with their owning mint url, per-keyset counters, quotes, proofs).  All
maps are association lists keyed on the identity named in the spec. -/
structure StoreState where
  kv : List (Triple × Bytes)
  mints : List (String × Option String)
  keysets : List (String × KeySetInfo)
  counters : List (String × Nat)
  mintQuotes : List String
  meltQuotes : List String
  proofs : List (String × ProofRec)
deriving DecidableEq, Repr

/-- The state of a freshly created backing store (nothing written yet). -/
def emptyState : StoreState := ⟨[], [], [], [], [], [], []⟩

/-! ### Key-value store operations (spec §4.1) -/

/-- Modelled from the spec: `write(domain, namespace, key, value)` upserts
the value under the triple, replacing any previous entry. -/
def kv_write (st : StoreState) (domain nspace key : String) (value : Bytes) :
    StoreState :=
  { st with kv :=
      (⟨domain, nspace, key⟩, value) ::
        st.kv.filter (fun e => e.1 ≠ ⟨domain, nspace, key⟩) }

/-- Modelled from the spec: `read(domain, namespace, key)` returns the exact
bytes last written under the triple, or `none` if absent; absence is a
value, never a raised failure. -/
def kv_read (st : StoreState) (domain nspace key : String) : Option Bytes :=
  (st.kv.find? (fun e => e.1 = ⟨domain, nspace, key⟩)).map (·.2)

/-- Modelled from the spec: `remove(domain, namespace, key)` deletes the
entry if present and is a no-op if absent. -/
def kv_remove (st : StoreState) (domain nspace key : String) : StoreState :=
  { st with kv := st.kv.filter (fun e => e.1 ≠ ⟨domain, nspace, key⟩) }

/-- Modelled from the spec: `list(domain, namespace)` returns the keys
currently live under that pair and no key from any other pair. -/
def kv_list (st : StoreState) (domain nspace : String) : List String :=
  (st.kv.filter (fun e => e.1.domain = domain ∧ e.1.nspace = nspace)).map
    (fun e => e.1.key)

/-! ### Domain repositories (spec §4.3) -/

/-- Modelled from the spec: `add_mint(url, metadata?)` creates or replaces
the mint record identified by its canonical url. -/
def add_mint (st : StoreState) (url : String) (info : Option String) :
    StoreState :=
  { st with mints := (url, info) :: st.mints.filter (fun e => e.1 ≠ url) }

/-- Modelled from the spec: `get_mint(url)` returns the mint record (its
optional metadata) or `none` if unknown. -/
def get_mint (st : StoreState) (url : String) : Option (Option String) :=
  (st.mints.find? (fun e => e.1 = url)).map (·.2)

/-- Modelled from the spec: `remove_mint(url)` deletes the mint record. -/
def remove_mint (st : StoreState) (url : String) : StoreState :=
  { st with mints := st.mints.filter (fun e => e.1 ≠ url) }

/-- Modelled from the spec: `add_mint_keysets(url, list)` bulk-inserts the
keysets for one mint, replacing any stored keyset carrying one of the
inserted ids. -/
def add_mint_keysets (st : StoreState) (url : String) (ks : List KeySetInfo) :
    StoreState :=
  { st with keysets :=
      ks.map (fun k => (url, k)) ++
        st.keysets.filter (fun e => ∀ k ∈ ks, k.id ≠ e.2.id) }

/-- Modelled from the spec: `get_keyset_by_id(id)` returns the stored keyset
record carrying that id, or `none`. -/
def get_keyset_by_id (st : StoreState) (id : String) : Option KeySetInfo :=
  (st.keysets.find? (fun e => e.2.id = id)).map (·.2)

/-- Modelled from the spec: `get_mint_keysets(url)` returns the keysets
stored for the given mint. -/
def get_mint_keysets (st : StoreState) (url : String) : List KeySetInfo :=
  (st.keysets.filter (fun e => e.1 = url)).map (·.2)

/-- The current value of a keyset counter: 0 if never touched. -/
def counter_value (st : StoreState) (id : String) : Nat :=
  ((st.counters.find? (fun e => e.1 = id)).map (·.2)).getD 0

/-- Modelled from the spec: `increment_keyset_counter(id, delta)` is an
atomic fetch-and-add — it adds `delta` to the counter (0 if never touched)
and returns the value after the addition together with the updated state. -/
def increment_keyset_counter (st : StoreState) (id : String) (delta : Nat) :
    Nat × StoreState :=
  let v := counter_value st id + delta
  (v, { st with counters := (id, v) :: st.counters.filter (fun e => e.1 ≠ id) })

/-- Modelled from the spec: `get_proofs_by_ys(ys)` returns the stored proofs
matching the queried Y values; an empty query returns an empty list. -/
def get_proofs_by_ys (st : StoreState) (ys : List String) : List ProofRec :=
  ys.filterMap (fun y => (st.proofs.find? (fun e => e.1 = y)).map (·.2))

/-! ### Transaction manager (spec §4.2, §5) -/

/-- Error conditions surfaced by the transaction manager. -/
inductive DbErr where
  | resourceBusy
  | invalidState
deriving DecidableEq, Repr

/-- Modelled from the spec: a wallet store holds the last committed state
and at most one Open transaction; the Open transaction owns a working copy
of the state holding its in-flight writes, invisible outside it. -/
structure Store where
  committed : StoreState
  openTx : Option StoreState
deriving DecidableEq, Repr

/-- Opening a store against a backing location exposes exactly its durably
committed state, with no transaction open. -/
def openStore (disk : StoreState) : Store := ⟨disk, none⟩

/-- Modelled from the spec: closing or dropping a store persists exactly the
committed state; an abandoned Open transaction is implicitly rolled back. -/
def closeStore (s : Store) : StoreState := s.committed

/-- Modelled from the spec: `begin` fails fast with ResourceBusy while a
transaction is already Open, else opens one whose working copy snapshots
the committed state. -/
def begin_db_transaction (s : Store) : Except DbErr Store :=
  match s.openTx with
  | some _ => .error .resourceBusy
  | none => .ok { s with openTx := some s.committed }

/-- Modelled from the spec: `commit` atomically makes every write of the
Open transaction durable; committing with no Open transaction fails with
InvalidState. -/
def commit (s : Store) : Except DbErr Store :=
  match s.openTx with
  | none => .error .invalidState
  | some w => .ok ⟨w, none⟩

/-- Modelled from the spec: `rollback` discards every write of the Open
transaction; rolling back with none open is a no-op (the idempotent choice
the spec allows). -/
def rollback (s : Store) : Store := { s with openTx := none }

/-- Modelled from the spec: a transaction handle dropped without commit or
rollback is treated identically to an explicit rollback. -/
def dropTx (s : Store) : Store := rollback s

/-- The writes a transaction can perform, as one operation language. -/
inductive TxOp where
  | kvWrite (domain nspace key : String) (value : Bytes)
  | kvRemove (domain nspace key : String)
  | addMint (url : String) (info : Option String)
  | removeMint (url : String)
  | addMintKeysets (url : String) (ks : List KeySetInfo)
  | incCounter (id : String) (delta : Nat)
deriving DecidableEq, Repr

/-- Effect of one write operation on a store state. -/
def applyOp (st : StoreState) : TxOp → StoreState
  | .kvWrite d n k v => kv_write st d n k v
  | .kvRemove d n k => kv_remove st d n k
  | .addMint u i => add_mint st u i
  | .removeMint u => remove_mint st u
  | .addMintKeysets u ks => add_mint_keysets st u ks
  | .incCounter i δ => (increment_keyset_counter st i δ).2

/-- Effect of a sequence of write operations. -/
def applyOps (st : StoreState) (ops : List TxOp) : StoreState :=
  ops.foldl applyOp st

/-- A write issued through the transaction handle: it touches only the Open
transaction's working copy; with no Open transaction it is InvalidState. -/
def tx_apply (s : Store) (op : TxOp) : Except DbErr Store :=
  match s.openTx with
  | none => .error .invalidState
  | some w => .ok { s with openTx := some (applyOp w op) }

/-- A sequence of writes issued through the transaction handle. -/
def tx_apply_all (s : Store) (ops : List TxOp) : Except DbErr Store :=
  match ops with
  | [] => .ok s
  | op :: rest => do tx_apply_all (← tx_apply s op) rest

/-- A read through the transaction handle observes the working copy
(read-your-writes). -/
def tx_kv_read (s : Store) (domain nspace key : String) :
    Except DbErr (Option Bytes) :=
  match s.openTx with
  | none => .error .invalidState
  | some w => .ok (kv_read w domain nspace key)

/-- Keyset lookup through the transaction handle (working copy). -/
def tx_get_keyset_by_id (s : Store) (id : String) :
    Except DbErr (Option KeySetInfo) :=
  match s.openTx with
  | none => .error .invalidState
  | some w => .ok (get_keyset_by_id w id)

/-- Counter increment through the transaction handle: returns the value
after the addition and the store with the updated working copy. -/
def tx_increment_keyset_counter (s : Store) (id : String) (delta : Nat) :
    Except DbErr (Nat × Store) :=
  match s.openTx with
  | none => .error .invalidState
  | some w =>
    let r := increment_keyset_counter w id delta
    .ok (r.1, { s with openTx := some r.2 })

/-- A one-shot read on the store object outside any transaction observes
only the committed state. -/
def db_kv_read (s : Store) (domain nspace key : String) : Option Bytes :=
  kv_read s.committed domain nspace key

/-- One-shot `list` on the store object (committed state). -/
def db_kv_list (s : Store) (domain nspace : String) : List String :=
  kv_list s.committed domain nspace

/-- One-shot keyset lookup on the store object (committed state). -/
def db_get_keyset_by_id (s : Store) (id : String) : Option KeySetInfo :=
  get_keyset_by_id s.committed id

/-- One-shot proof query on the store object (committed state). -/
def db_get_proofs_by_ys (s : Store) (ys : List String) : List ProofRec :=
  get_proofs_by_ys s.committed ys

/-- Does the operation write the key-value entry at the given triple? -/
def touchesKV : TxOp → Triple → Bool
  | .kvWrite d n k _, t => (⟨d, n, k⟩ : Triple) = t
  | .kvRemove d n k, t => (⟨d, n, k⟩ : Triple) = t
  | _, _ => false

/-! ### Basic lemmas about the association-list maps -/

theorem find?_filter_of_imp {α : Type _} (l : List α) (p q : α → Bool)
    (h : ∀ a, p a = true → q a = true) :
    (l.filter q).find? p = l.find? p := by
  induction l with
  | nil => rfl
  | cons a l ih =>
    by_cases hq : q a = true
    · by_cases hp : p a = true
      · simp [List.filter_cons, hq, List.find?_cons, hp]
      · simp only [Bool.not_eq_true] at hp
        simp [List.filter_cons, hq, List.find?_cons, hp, ih]
    · have hp : p a = false := by
        cases hpa : p a with
        | false => rfl
        | true => exact absurd (h a hpa) hq
      simp only [Bool.not_eq_true] at hq
      simp [List.filter_cons, hq, List.find?_cons, hp, ih]

theorem kv_read_write_self (st : StoreState) (d n k : String) (v : Bytes) :
    kv_read (kv_write st d n k v) d n k = some v := by
  simp [kv_read, kv_write, List.find?_cons]

theorem kv_read_write_other (st : StoreState) (d n k d₁ n₁ k₁ : String)
    (v : Bytes) (h : (⟨d, n, k⟩ : Triple) ≠ ⟨d₁, n₁, k₁⟩) :
    kv_read (kv_write st d₁ n₁ k₁ v) d n k = kv_read st d n k := by
  have hhead : (decide ((⟨d₁, n₁, k₁⟩ : Triple) = ⟨d, n, k⟩)) = false :=
    decide_eq_false (fun he => h he.symm)
  simp only [kv_read, kv_write, List.find?_cons, hhead]
  rw [find?_filter_of_imp]
  intro e he
  rw [decide_eq_true_eq] at he
  rw [decide_eq_true_eq]
  exact fun hcontra => h (he.symm.trans hcontra)

theorem kv_read_remove_self (st : StoreState) (d n k : String) :
    kv_read (kv_remove st d n k) d n k = none := by
  simp only [kv_read, kv_remove]
  have hnone : (st.kv.filter (fun e => e.1 ≠ (⟨d, n, k⟩ : Triple))).find?
      (fun e => e.1 = (⟨d, n, k⟩ : Triple)) = none := by
    rw [List.find?_eq_none]
    intro a ha
    have hmem := List.of_mem_filter ha
    rw [decide_eq_true_eq] at hmem
    simpa using hmem
  rw [hnone]
  rfl

theorem kv_read_remove_other (st : StoreState) (d n k d₁ n₁ k₁ : String)
    (h : (⟨d, n, k⟩ : Triple) ≠ ⟨d₁, n₁, k₁⟩) :
    kv_read (kv_remove st d₁ n₁ k₁) d n k = kv_read st d n k := by
  simp only [kv_read, kv_remove]
  rw [find?_filter_of_imp]
  intro e he
  rw [decide_eq_true_eq] at he
  rw [decide_eq_true_eq]
  exact fun hcontra => h (he.symm.trans hcontra)

theorem counter_value_increment_self (st : StoreState) (id : String)
    (delta : Nat) :
    counter_value (increment_keyset_counter st id delta).2 id =
      counter_value st id + delta := by
  simp [counter_value, increment_keyset_counter, List.find?_cons]

theorem counter_value_increment_other (st : StoreState) (id id₁ : String)
    (delta : Nat) (h : id ≠ id₁) :
    counter_value (increment_keyset_counter st id₁ delta).2 id =
      counter_value st id := by
  have hhead : (decide (id₁ = id)) = false :=
    decide_eq_false (fun he => h he.symm)
  simp only [counter_value, increment_keyset_counter, List.find?_cons, hhead]
  rw [find?_filter_of_imp]
  intro e he
  rw [decide_eq_true_eq] at he
  rw [decide_eq_true_eq]
  exact fun hcontra => h (he.symm.trans hcontra)

/-- Does the operation touch the counter of the given keyset id? -/
def touchesCounter : TxOp → String → Bool
  | .incCounter i _, id => i = id
  | _, _ => false

theorem applyOp_kv_untouched (st : StoreState) (op : TxOp) (t : Triple)
    (h : touchesKV op t = false) :
    kv_read (applyOp st op) t.domain t.nspace t.key =
      kv_read st t.domain t.nspace t.key := by
  cases op with
  | kvWrite d n k v =>
    have hne : (⟨t.domain, t.nspace, t.key⟩ : Triple) ≠ ⟨d, n, k⟩ := by
      intro he
      rw [touchesKV, decide_eq_false_iff_not] at h
      exact h he.symm
    exact kv_read_write_other st t.domain t.nspace t.key d n k v hne
  | kvRemove d n k =>
    have hne : (⟨t.domain, t.nspace, t.key⟩ : Triple) ≠ ⟨d, n, k⟩ := by
      intro he
      rw [touchesKV, decide_eq_false_iff_not] at h
      exact h he.symm
    exact kv_read_remove_other st t.domain t.nspace t.key d n k hne
  | addMint u i => rfl
  | removeMint u => rfl
  | addMintKeysets u ks => rfl
  | incCounter i δ => rfl

theorem applyOps_kv_untouched (ops : List TxOp) (st : StoreState) (t : Triple)
    (h : ∀ op ∈ ops, touchesKV op t = false) :
    kv_read (applyOps st ops) t.domain t.nspace t.key =
      kv_read st t.domain t.nspace t.key := by
  induction ops generalizing st with
  | nil => rfl
  | cons op rest ih =>
    rw [applyOps, List.foldl_cons]
    rw [show List.foldl applyOp (applyOp st op) rest =
      applyOps (applyOp st op) rest from rfl]
    rw [ih (applyOp st op) (fun o ho => h o (List.mem_cons_of_mem op ho))]
    exact applyOp_kv_untouched st op t (h op (List.mem_cons_self op rest))

theorem applyOp_counter_untouched (st : StoreState) (op : TxOp) (id : String)
    (h : touchesCounter op id = false) :
    counter_value (applyOp st op) id = counter_value st id := by
  cases op with
  | kvWrite d n k v => rfl
  | kvRemove d n k => rfl
  | addMint u i => rfl
  | removeMint u => rfl
  | addMintKeysets u ks => rfl
  | incCounter i δ =>
    have hne : id ≠ i := by
      intro he
      rw [touchesCounter, decide_eq_false_iff_not] at h
      exact h he.symm
    exact counter_value_increment_other st id i δ hne

theorem applyOps_counter_untouched (ops : List TxOp) (st : StoreState)
    (id : String) (h : ∀ op ∈ ops, touchesCounter op id = false) :
    counter_value (applyOps st ops) id = counter_value st id := by
  induction ops generalizing st with
  | nil => rfl
  | cons op rest ih =>
    rw [applyOps, List.foldl_cons]
    rw [show List.foldl applyOp (applyOp st op) rest =
      applyOps (applyOp st op) rest from rfl]
    rw [ih (applyOp st op) (fun o ho => h o (List.mem_cons_of_mem op ho))]
    exact applyOp_counter_untouched st op id (h op (List.mem_cons_self op rest))

/-! ### Lemmas about the transaction layer -/

theorem begin_ok (s : Store) (h : s.openTx = none) :
    begin_db_transaction s = .ok ⟨s.committed, some s.committed⟩ := by
  cases s
  simp_all [begin_db_transaction]

theorem begin_busy (s : Store) (w : StoreState) (h : s.openTx = some w) :
    begin_db_transaction s = .error .resourceBusy := by
  cases s
  simp_all [begin_db_transaction]

theorem tx_apply_ok (s : Store) (w : StoreState) (op : TxOp)
    (h : s.openTx = some w) :
    tx_apply s op = .ok ⟨s.committed, some (applyOp w op)⟩ := by
  cases s
  simp_all [tx_apply]

theorem tx_apply_all_ok (ops : List TxOp) (s : Store) (w : StoreState)
    (h : s.openTx = some w) :
    tx_apply_all s ops = .ok ⟨s.committed, some (applyOps w ops)⟩ := by
  induction ops generalizing s w with
  | nil =>
    cases s
    simp_all [tx_apply_all, applyOps]
  | cons op rest ih =>
    rw [tx_apply_all, tx_apply_ok s w op h]
    show tx_apply_all (⟨s.committed, some (applyOp w op)⟩ : Store) rest = _
    rw [ih ⟨s.committed, some (applyOp w op)⟩ (applyOp w op) rfl]
    rfl

theorem commit_ok (s : Store) (w : StoreState) (h : s.openTx = some w) :
    commit s = .ok ⟨w, none⟩ := by
  cases s
  simp_all [commit]

theorem applyOps_append (st : StoreState) (l₁ l₂ : List TxOp) :
    applyOps st (l₁ ++ l₂) = applyOps (applyOps st l₁) l₂ :=
  List.foldl_append applyOp st l₁ l₂

/-- Does the operation write (not merely remove) the entry at the triple? -/
def writesKV : TxOp → Triple → Bool
  | .kvWrite d n k _, t => (⟨d, n, k⟩ : Triple) = t
  | _, _ => false

theorem applyOp_kv_none (st : StoreState) (op : TxOp) (t : Triple)
    (h : writesKV op t = false)
    (h₀ : kv_read st t.domain t.nspace t.key = none) :
    kv_read (applyOp st op) t.domain t.nspace t.key = none := by
  cases op with
  | kvWrite d n k v =>
    have hne : (⟨t.domain, t.nspace, t.key⟩ : Triple) ≠ ⟨d, n, k⟩ := by
      intro he
      rw [writesKV, decide_eq_false_iff_not] at h
      exact h he.symm
    rw [applyOp, kv_read_write_other st t.domain t.nspace t.key d n k v hne]
    exact h₀
  | kvRemove d n k =>
    by_cases he : (⟨t.domain, t.nspace, t.key⟩ : Triple) = ⟨d, n, k⟩
    · have hd : t.domain = d := congrArg Triple.domain he
      have hn : t.nspace = n := congrArg Triple.nspace he
      have hk : t.key = k := congrArg Triple.key he
      rw [applyOp, hd, hn, hk]
      exact kv_read_remove_self st d n k
    · rw [applyOp, kv_read_remove_other st t.domain t.nspace t.key d n k he]
      exact h₀
  | addMint u i => exact h₀
  | removeMint u => exact h₀
  | addMintKeysets u ks => exact h₀
  | incCounter i δ => exact h₀

theorem applyOps_kv_none (ops : List TxOp) (st : StoreState) (t : Triple)
    (h : ∀ op ∈ ops, writesKV op t = false)
    (h₀ : kv_read st t.domain t.nspace t.key = none) :
    kv_read (applyOps st ops) t.domain t.nspace t.key = none := by
  induction ops generalizing st with
  | nil => exact h₀
  | cons op rest ih =>
    rw [applyOps, List.foldl_cons]
    exact ih (applyOp st op) (fun o ho => h o (List.mem_cons_of_mem op ho))
      (applyOp_kv_none st op t (h op (List.mem_cons_self op rest)) h₀)

/-- A `delta = 0` call of the counter interface, used as a pure peek. -/
def peek (st : StoreState) (id : String) : StoreState :=
  (increment_keyset_counter st id 0).2

/-- Any number of peeks at any keyset ids, in sequence. -/
def peekAll (st : StoreState) (ids : List String) : StoreState :=
  ids.foldl peek st

theorem counter_value_peek (st : StoreState) (id id₁ : String) :
    counter_value (peek st id₁) id = counter_value st id := by
  by_cases h : id = id₁
  · subst h
    rw [peek, counter_value_increment_self, Nat.add_zero]
  · exact counter_value_increment_other st id id₁ 0 h

theorem counter_value_peekAll (ids : List String) (st : StoreState)
    (id : String) :
    counter_value (peekAll st ids) id = counter_value st id := by
  induction ids generalizing st with
  | nil => rfl
  | cons i rest ih =>
    rw [peekAll, List.foldl_cons]
    rw [show List.foldl peek (peek st i) rest = peekAll (peek st i) rest from
      rfl]
    rw [ih (peek st i)]
    exact counter_value_peek st id i

/-! ### The claims -/

/-- C1: every sequence of writes performed through a transaction that is
rolled back — explicitly, or implicitly because the handle is dropped
without commit — is invisible afterwards: the store returns to the state
last committed before the transaction began, and a subsequently begun
transaction observes exactly that committed state. -/
theorem c1_rollback_fully_reverting (s s₁ s₂ : Store) (ops : List TxOp)
    (hb : begin_db_transaction s = .ok s₁)
    (ha : tx_apply_all s₁ ops = .ok s₂) :
    rollback s₂ = ⟨s.committed, none⟩ ∧
    dropTx s₂ = ⟨s.committed, none⟩ ∧
    begin_db_transaction (rollback s₂) =
      .ok ⟨s.committed, some s.committed⟩ ∧
    begin_db_transaction (dropTx s₂) =
      .ok ⟨s.committed, some s.committed⟩ := by
  have hnone : s.openTx = none := by
    cases h : s.openTx with
    | none => rfl
    | some w =>
      rw [begin_busy s w h] at hb
      exact absurd hb (by simp)
  rw [begin_ok s hnone] at hb
  have hs₁ : s₁ = ⟨s.committed, some s.committed⟩ := by
    injection hb with h
    exact h.symm
  rw [hs₁, tx_apply_all_ok ops _ s.committed rfl] at ha
  have hs₂ : s₂ = ⟨s.committed, some (applyOps s.committed ops)⟩ := by
    injection ha with h
    exact h.symm
  subst hs₂
  exact ⟨rfl, rfl, rfl, rfl⟩

/-- Witness for C1 at a concrete store and write sequence. -/
theorem c1_rollback_fully_reverting_witness :
    rollback ⟨emptyState, some (applyOps emptyState
        [TxOp.kvWrite "app" "cfg" "k" [7]])⟩ = ⟨emptyState, none⟩ ∧
    dropTx ⟨emptyState, some (applyOps emptyState
        [TxOp.kvWrite "app" "cfg" "k" [7]])⟩ = ⟨emptyState, none⟩ ∧
    begin_db_transaction (rollback ⟨emptyState, some (applyOps emptyState
        [TxOp.kvWrite "app" "cfg" "k" [7]])⟩) =
      .ok ⟨emptyState, some emptyState⟩ ∧
    begin_db_transaction (dropTx ⟨emptyState, some (applyOps emptyState
        [TxOp.kvWrite "app" "cfg" "k" [7]])⟩) =
      .ok ⟨emptyState, some emptyState⟩ :=
  c1_rollback_fully_reverting (openStore emptyState)
    ⟨emptyState, some emptyState⟩ _ [TxOp.kvWrite "app" "cfg" "k" [7]] rfl rfl

/-- C2: a write performed through a transaction that commits successfully
(and is not overwritten later in the same transaction) is visible to every
subsequently begun transaction, and still visible after the store is closed
and reopened against the same backing location. -/
theorem c2_commit_durable_and_visible (s s₁ s₂ s₃ : Store)
    (l₁ l₂ : List TxOp) (d n k : String) (v : Bytes)
    (hb : begin_db_transaction s = .ok s₁)
    (ha : tx_apply_all s₁ (l₁ ++ TxOp.kvWrite d n k v :: l₂) = .ok s₂)
    (hl : ∀ op ∈ l₂, touchesKV op ⟨d, n, k⟩ = false)
    (hc : commit s₂ = .ok s₃) :
    db_kv_read s₃ d n k = some v ∧
    (∀ s₄, begin_db_transaction s₃ = .ok s₄ →
      tx_kv_read s₄ d n k = .ok (some v)) ∧
    db_kv_read (openStore (closeStore s₃)) d n k = some v := by
  have hnone : s.openTx = none := by
    cases h : s.openTx with
    | none => rfl
    | some w =>
      rw [begin_busy s w h] at hb
      exact absurd hb (by simp)
  rw [begin_ok s hnone] at hb
  have hs₁ : s₁ = ⟨s.committed, some s.committed⟩ := by
    injection hb with h
    exact h.symm
  rw [hs₁, tx_apply_all_ok _ _ s.committed rfl] at ha
  have hs₂ : s₂ = ⟨s.committed,
      some (applyOps s.committed (l₁ ++ TxOp.kvWrite d n k v :: l₂))⟩ := by
    injection ha with h
    exact h.symm
  rw [hs₂, commit_ok _ _ rfl] at hc
  have hs₃ : s₃ = ⟨applyOps s.committed
      (l₁ ++ TxOp.kvWrite d n k v :: l₂), none⟩ := by
    injection hc with h
    exact h.symm
  have hread : kv_read (applyOps s.committed
      (l₁ ++ TxOp.kvWrite d n k v :: l₂)) d n k = some v := by
    rw [applyOps_append]
    rw [show applyOps (applyOps s.committed l₁)
      (TxOp.kvWrite d n k v :: l₂) =
        applyOps (kv_write (applyOps s.committed l₁) d n k v) l₂ from rfl]
    rw [applyOps_kv_untouched l₂ _ ⟨d, n, k⟩ hl]
    exact kv_read_write_self _ d n k v
  subst hs₃
  refine ⟨hread, ?_, hread⟩
  intro s₄ hb₄
  rw [begin_ok _ rfl] at hb₄
  have hs₄ : s₄ = ⟨applyOps s.committed (l₁ ++ TxOp.kvWrite d n k v :: l₂),
      some (applyOps s.committed (l₁ ++ TxOp.kvWrite d n k v :: l₂))⟩ := by
    injection hb₄ with h
    exact h.symm
  subst hs₄
  show Except.ok (kv_read (applyOps s.committed
    (l₁ ++ TxOp.kvWrite d n k v :: l₂)) d n k) = .ok (some v)
  rw [hread]

/-- Witness for C2 at a concrete store, transaction and write. -/
theorem c2_commit_durable_and_visible_witness :
    db_kv_read ⟨applyOps emptyState
        ([] ++ TxOp.kvWrite "app" "cfg" "k" [255] :: []), none⟩
      "app" "cfg" "k" = some [255] ∧
    (∀ s₄, begin_db_transaction ⟨applyOps emptyState
        ([] ++ TxOp.kvWrite "app" "cfg" "k" [255] :: []), none⟩ = .ok s₄ →
      tx_kv_read s₄ "app" "cfg" "k" = .ok (some [255])) ∧
    db_kv_read (openStore (closeStore ⟨applyOps emptyState
        ([] ++ TxOp.kvWrite "app" "cfg" "k" [255] :: []), none⟩))
      "app" "cfg" "k" = some [255] :=
  c2_commit_durable_and_visible (openStore emptyState)
    ⟨emptyState, some emptyState⟩
    ⟨emptyState, some (applyOps emptyState
        ([] ++ TxOp.kvWrite "app" "cfg" "k" [255] :: []))⟩ _
    [] [] "app" "cfg" "k" [255] rfl
    (tx_apply_all_ok ([] ++ TxOp.kvWrite "app" "cfg" "k" [255] :: [])
      ⟨emptyState, some emptyState⟩ emptyState rfl) (by simp) rfl

/-- C4: at most one transaction is Open against a store at any time: while
one is Open a second begin fails fast with ResourceBusy; a successful begin
happens only from the no-open state; commit and rollback (and abandonment,
which equals rollback) resolve the Open transaction, after which begin
succeeds again. -/
theorem c4_single_open_transaction :
    (∀ s : Store, s.openTx ≠ none →
      begin_db_transaction s = .error DbErr.resourceBusy) ∧
    (∀ s s' : Store, begin_db_transaction s = .ok s' →
      s.openTx = none ∧ s'.openTx = some s.committed) ∧
    (∀ s : Store, (rollback s).openTx = none ∧
      begin_db_transaction (rollback s) =
        .ok ⟨s.committed, some s.committed⟩) ∧
    (∀ s s' : Store, commit s = .ok s' → s'.openTx = none ∧
      begin_db_transaction s' = .ok ⟨s'.committed, some s'.committed⟩) := by
  refine ⟨?_, ?_, ?_, ?_⟩
  · intro s h
    cases ho : s.openTx with
    | none => exact absurd ho h
    | some w => exact begin_busy s w ho
  · intro s s' h
    cases ho : s.openTx with
    | none =>
      rw [begin_ok s ho] at h
      injection h with h
      refine ⟨rfl, ?_⟩
      rw [← h]
    | some w =>
      rw [begin_busy s w ho] at h
      exact absurd h (by simp)
  · intro s
    exact ⟨rfl, rfl⟩
  · intro s s' h
    cases ho : s.openTx with
    | none =>
      rw [commit, ho] at h
      exact absurd h (by simp)
    | some w =>
      rw [commit_ok s w ho] at h
      injection h with h
      rw [← h]
      exact ⟨rfl, rfl⟩

/-- Witness for C4: a second begin while a transaction is Open on a concrete
store fails with ResourceBusy. -/
theorem c4_single_open_transaction_witness :
    begin_db_transaction ⟨emptyState, some emptyState⟩ =
      .error DbErr.resourceBusy :=
  c4_single_open_transaction.1 ⟨emptyState, some emptyState⟩ (by simp)

/-- The counter never touched on a fresh store reads 0. -/
theorem counter_value_empty (id : String) :
    counter_value emptyState id = 0 := rfl

/-- The values returned by a run of successive counter increments of the
given deltas on one keyset id. -/
def incRun (st : StoreState) (id : String) : List Nat → List Nat
  | [] => []
  | delta :: rest =>
    (increment_keyset_counter st id delta).1 ::
      incRun (increment_keyset_counter st id delta).2 id rest

theorem increment_keyset_counter_fst (st : StoreState) (id : String)
    (delta : Nat) :
    (increment_keyset_counter st id delta).1 = counter_value st id + delta :=
  rfl

/-- C3: the counter starts at 0 if never incremented;
`increment_keyset_counter` adds the delta and returns the value after the
addition (1 then 6 on a fresh keyset for deltas 1 then 5; 1,2,3,4,5 for
five increments by 1); a call with delta 0 is a pure peek returning the
current value, and any number of peeks never changes the result of a later
increment. -/
theorem c3_counter_semantics :
    (∀ ops id, (∀ op ∈ ops, touchesCounter op id = false) →
      counter_value (applyOps emptyState ops) id = 0) ∧
    (∀ st id delta,
      (increment_keyset_counter st id delta).1 = counter_value st id + delta) ∧
    (∀ id, incRun emptyState id [1, 5] = [1, 6]) ∧
    (∀ id, incRun emptyState id [1, 1, 1, 1, 1] = [1, 2, 3, 4, 5]) ∧
    (∀ st id, (increment_keyset_counter st id 0).1 = counter_value st id) ∧
    (∀ st ids id delta,
      (increment_keyset_counter (peekAll st ids) id delta).1 =
        (increment_keyset_counter st id delta).1) := by
  refine ⟨?_, ?_, ?_, ?_, ?_, ?_⟩
  · intro ops id h
    rw [applyOps_counter_untouched ops emptyState id h]
    rfl
  · intro st id delta
    rfl
  · intro id
    simp [incRun, increment_keyset_counter_fst, counter_value_increment_self,
      counter_value_empty]
  · intro id
    simp [incRun, increment_keyset_counter_fst, counter_value_increment_self,
      counter_value_empty]
  · intro st id
    rfl
  · intro st ids id delta
    rw [increment_keyset_counter_fst, increment_keyset_counter_fst,
      counter_value_peekAll]

/-- Witness for C3 at a concrete operation list and keyset id. -/
theorem c3_counter_semantics_witness :
    counter_value (applyOps emptyState
      [TxOp.kvWrite "a" "b" "c" [], TxOp.addMint "m" none]) "ks" = 0 :=
  c3_counter_semantics.1 [TxOp.kvWrite "a" "b" "c" [], TxOp.addMint "m" none]
    "ks" (by decide)

/-- C5: a read issued through an Open transaction observes every write
previously issued through that same transaction — directly after one write,
and in general the reads see exactly the working state with all the
transaction's writes applied — including add_mint_keysets followed by
get_keyset_by_id, while reads outside the transaction keep observing only
the prior committed state until commit. -/
theorem c5_read_your_writes (s : Store) (w : StoreState)
    (hw : s.openTx = some w) :
    (∀ ops s', tx_apply_all s ops = .ok s' →
      (∀ d n k, tx_kv_read s' d n k =
          .ok (kv_read (applyOps w ops) d n k) ∧
        db_kv_read s' d n k = db_kv_read s d n k) ∧
      (∀ i, tx_get_keyset_by_id s' i =
          .ok (get_keyset_by_id (applyOps w ops) i) ∧
        db_get_keyset_by_id s' i = db_get_keyset_by_id s i)) ∧
    (∀ d n k v s', tx_apply s (.kvWrite d n k v) = .ok s' →
      tx_kv_read s' d n k = .ok (some v) ∧
      db_kv_read s' d n k = db_kv_read s d n k) ∧
    (∀ u info s', tx_apply s (.addMintKeysets u [info]) = .ok s' →
      tx_get_keyset_by_id s' info.id = .ok (some info) ∧
      db_get_keyset_by_id s' info.id = db_get_keyset_by_id s info.id) := by
  refine ⟨?_, ?_, ?_⟩
  · intro ops s' h
    rw [tx_apply_all_ok ops s w hw] at h
    have hs' : s' = ⟨s.committed, some (applyOps w ops)⟩ := by
      injection h with h
      exact h.symm
    subst hs'
    exact ⟨fun d n k => ⟨rfl, rfl⟩, fun i => ⟨rfl, rfl⟩⟩
  · intro d n k v s' h
    rw [tx_apply_ok s w _ hw] at h
    have hs' : s' = ⟨s.committed, some (kv_write w d n k v)⟩ := by
      injection h with h
      exact h.symm
    subst hs'
    constructor
    · show Except.ok (kv_read (kv_write w d n k v) d n k) = .ok (some v)
      rw [kv_read_write_self]
    · rfl
  · intro u info s' h
    rw [tx_apply_ok s w _ hw] at h
    have hs' : s' = ⟨s.committed, some (add_mint_keysets w u [info])⟩ := by
      injection h with h
      exact h.symm
    subst hs'
    constructor
    · show Except.ok (get_keyset_by_id (add_mint_keysets w u [info]) info.id) =
        .ok (some info)
      simp [get_keyset_by_id, add_mint_keysets, List.find?_cons]
    · rfl

/-- Witness for C5 at a concrete open transaction and write. -/
theorem c5_read_your_writes_witness :
    ∃ s', tx_apply ⟨emptyState, some emptyState⟩
        (TxOp.kvWrite "intra" "tx" "mykey" [1, 2]) = .ok s' ∧
      tx_kv_read s' "intra" "tx" "mykey" = .ok (some [1, 2]) ∧
      db_kv_read s' "intra" "tx" "mykey" =
        db_kv_read ⟨emptyState, some emptyState⟩ "intra" "tx" "mykey" :=
  ⟨⟨emptyState, some (kv_write emptyState "intra" "tx" "mykey" [1, 2])⟩, rfl,
    (c5_read_your_writes ⟨emptyState, some emptyState⟩ emptyState rfl).2.1
      "intra" "tx" "mykey" [1, 2]
      ⟨emptyState, some (kv_write emptyState "intra" "tx" "mykey" [1, 2])⟩ rfl⟩

/-- C6: for every (domain, namespace, key, value) with the value an
arbitrary byte sequence, a committed write followed by a read of the same
triple returns exactly the value, byte for byte. -/
theorem c6_write_read_roundtrip :
    (∀ st d n k v, kv_read (kv_write st d n k v) d n k = some v) ∧
    (∀ (s : Store) d n k v, s.openTx = none →
      ∃ s₁ s₂ s₃, begin_db_transaction s = .ok s₁ ∧
        tx_apply s₁ (.kvWrite d n k v) = .ok s₂ ∧
        commit s₂ = .ok s₃ ∧
        db_kv_read s₃ d n k = some v) := by
  refine ⟨kv_read_write_self, ?_⟩
  intro s d n k v h
  refine ⟨⟨s.committed, some s.committed⟩,
    ⟨s.committed, some (kv_write s.committed d n k v)⟩,
    ⟨kv_write s.committed d n k v, none⟩, begin_ok s h, ?_, ?_, ?_⟩
  · exact tx_apply_ok _ s.committed _ rfl
  · exact commit_ok _ _ rfl
  · exact kv_read_write_self s.committed d n k v

/-- Witness for C6 at a concrete store and byte value. -/
theorem c6_write_read_roundtrip_witness :
    ∃ s₁ s₂ s₃, begin_db_transaction (openStore emptyState) = .ok s₁ ∧
      tx_apply s₁ (.kvWrite "binary" "test" "bytes" [0, 171, 255]) = .ok s₂ ∧
      commit s₂ = .ok s₃ ∧
      db_kv_read s₃ "binary" "test" "bytes" = some [0, 171, 255] :=
  c6_write_read_roundtrip.2 (openStore emptyState) "binary" "test" "bytes"
    [0, 171, 255] rfl

/-- C7: entries under distinct (domain, namespace) pairs never collide even
with identical key text — writing under two distinct triples leaves each
value independently readable — and list(domain, namespace) holds exactly
the keys live under that pair: a key is listed precisely when a read of it
under that pair succeeds. -/
theorem c7_namespace_isolation_list_exact :
    (∀ st d n k v d₁ n₁ k₁ v₁, (⟨d, n, k⟩ : Triple) ≠ ⟨d₁, n₁, k₁⟩ →
      kv_read (kv_write (kv_write st d n k v) d₁ n₁ k₁ v₁) d₁ n₁ k₁ =
        some v₁ ∧
      kv_read (kv_write (kv_write st d n k v) d₁ n₁ k₁ v₁) d n k = some v) ∧
    (∀ st d n k, k ∈ kv_list st d n ↔ kv_read st d n k ≠ none) := by
  constructor
  · intro st d n k v d₁ n₁ k₁ v₁ h
    refine ⟨kv_read_write_self _ d₁ n₁ k₁ v₁, ?_⟩
    rw [kv_read_write_other _ d n k d₁ n₁ k₁ v₁ h]
    exact kv_read_write_self st d n k v
  · intro st d n k
    constructor
    · intro hmem
      obtain ⟨e, hef, hek⟩ := List.mem_map.1 hmem
      obtain ⟨hel, hep⟩ := List.mem_filter.1 hef
      rw [decide_eq_true_eq] at hep
      have he1 : e.1 = ⟨d, n, k⟩ := by
        obtain ⟨⟨ed, en, ek⟩, ev⟩ := e
        simp only at hek hep
        rw [Triple.mk.injEq]
        exact ⟨hep.1, hep.2, hek⟩
      rw [kv_read, Option.ne_none_iff_isSome, Option.isSome_map']
      exact List.find?_isSome.2 ⟨e, hel, by rw [decide_eq_true_eq]; exact he1⟩
    · intro hne
      rw [kv_read, Option.ne_none_iff_isSome, Option.isSome_map'] at hne
      obtain ⟨e, hf⟩ := Option.isSome_iff_exists.1 hne
      have hel : e ∈ st.kv := List.mem_of_find?_eq_some hf
      have hep := List.find?_some hf
      rw [decide_eq_true_eq] at hep
      refine List.mem_map.2 ⟨e, List.mem_filter.2 ⟨hel, ?_⟩, ?_⟩
      · rw [decide_eq_true_eq, hep]
        exact ⟨rfl, rfl⟩
      · rw [hep]

/-- Witness for C7 at two concrete colliding key names in distinct
domains. -/
theorem c7_namespace_isolation_list_exact_witness :
    kv_read (kv_write (kv_write emptyState "app1" "config" "key" [1])
        "app2" "config" "key" [2]) "app2" "config" "key" = some [2] ∧
    kv_read (kv_write (kv_write emptyState "app1" "config" "key" [1])
        "app2" "config" "key" [2]) "app1" "config" "key" = some [1] :=
  c7_namespace_isolation_list_exact.1 emptyState "app1" "config" "key" [1]
    "app2" "config" "key" [2] (by decide)

/-- C8: absence is always an explicit value, never a raised failure: a read
of a never-written triple returns none (even after other operations,
including removes of that very triple), listing an untouched pair returns
the empty collection, unknown-id mint and keyset lookups return none, and
get_proofs_by_ys on the empty list returns the empty list. -/
theorem c8_absence_is_a_value :
    (∀ ops d n k, (∀ op ∈ ops, writesKV op ⟨d, n, k⟩ = false) →
      kv_read (applyOps emptyState ops) d n k = none) ∧
    (∀ st d n, (∀ e ∈ st.kv, ¬(e.1.domain = d ∧ e.1.nspace = n)) →
      kv_list st d n = []) ∧
    (∀ st u, (∀ e ∈ st.mints, e.1 ≠ u) → get_mint st u = none) ∧
    (∀ st i, (∀ e ∈ st.keysets, e.2.id ≠ i) → get_keyset_by_id st i = none) ∧
    (∀ st, get_proofs_by_ys st [] = []) := by
  refine ⟨?_, ?_, ?_, ?_, fun st => rfl⟩
  · intro ops d n k h
    exact applyOps_kv_none ops emptyState ⟨d, n, k⟩ h rfl
  · intro st d n h
    rw [kv_list, List.filter_eq_nil_iff.2, List.map_nil]
    intro e he
    rw [decide_eq_true_eq]
    exact h e he
  · intro st u h
    rw [get_mint, List.find?_eq_none.2, Option.map_none']
    intro e he
    rw [decide_eq_true_eq]
    exact h e he
  · intro st i h
    rw [get_keyset_by_id, List.find?_eq_none.2, Option.map_none']
    intro e he
    rw [decide_eq_true_eq]
    exact h e he

/-- Witness for C8: reading a triple that was only ever removed, never
written, returns none. -/
theorem c8_absence_is_a_value_witness :
    kv_read (applyOps emptyState [TxOp.kvRemove "x" "y" "z"]) "x" "y" "z" =
      none :=
  c8_absence_is_a_value.1 [TxOp.kvRemove "x" "y" "z"] "x" "y" "z" (by decide)

/-- C9: remove is idempotent: removing twice has the same effect as
removing once, a read after a remove returns absent, and removing from a
store where the key was never written succeeds and changes nothing. -/
theorem c9_remove_idempotent :
    (∀ st d n k, kv_remove (kv_remove st d n k) d n k = kv_remove st d n k) ∧
    (∀ st d n k, kv_read (kv_remove st d n k) d n k = none) ∧
    (∀ d n k, kv_remove emptyState d n k = emptyState) := by
  have hfilter : ∀ (l : List (Triple × Bytes)) (p : Triple × Bytes → Bool),
      (l.filter p).filter p = l.filter p := by
    intro l p
    induction l with
    | nil => rfl
    | cons a l ih =>
      by_cases hp : p a = true
      · simp [List.filter_cons, hp, ih]
      · simp only [Bool.not_eq_true] at hp
        simp [List.filter_cons, hp, ih]
  refine ⟨?_, kv_read_remove_self, fun d n k => rfl⟩
  intro st d n k
  simp only [kv_remove]
  congr 1
  exact hfilter _ _

/-- C10: keyset lookup is key-consistent: get_keyset_by_id never returns a
record with a different id than queried, and for every keyset stored via
add_mint_keysets a lookup of its id returns a present record with that id —
both on the bare state, inside the writing transaction, and after that
transaction commits. -/
theorem c10_keyset_lookup_consistent :
    (∀ st i r, get_keyset_by_id st i = some r → r.id = i) ∧
    (∀ st u ks info, info ∈ ks →
      ∃ r, get_keyset_by_id (add_mint_keysets st u ks) info.id = some r ∧
        r.id = info.id) ∧
    (∀ (s : Store) (w : StoreState) u ks info s',
      s.openTx = some w → info ∈ ks →
      tx_apply s (.addMintKeysets u ks) = .ok s' →
      (∃ r, tx_get_keyset_by_id s' info.id = .ok (some r) ∧
        r.id = info.id) ∧
      (∀ s'', commit s' = .ok s'' →
        ∃ r, db_get_keyset_by_id s'' info.id = some r ∧ r.id = info.id)) := by
  have h1 : ∀ st i r, get_keyset_by_id st i = some r → r.id = i := by
    intro st i r h
    rw [get_keyset_by_id] at h
    cases hf : st.keysets.find? (fun e => e.2.id = i) with
    | none =>
      rw [hf] at h
      exact absurd h (by simp)
    | some e =>
      rw [hf, Option.map_some'] at h
      have hp := List.find?_some hf
      rw [decide_eq_true_eq] at hp
      injection h with h
      rw [← h]
      exact hp
  have h2 : ∀ st u ks info, info ∈ ks →
      ∃ r, get_keyset_by_id (add_mint_keysets st u ks) info.id = some r ∧
        r.id = info.id := by
    intro st u ks info hmem
    have hin : (u, info) ∈ (add_mint_keysets st u ks).keysets :=
      List.mem_append_left _ (List.mem_map_of_mem _ hmem)
    have hsome : ((add_mint_keysets st u ks).keysets.find?
        (fun e => e.2.id = info.id)).isSome :=
      List.find?_isSome.2 ⟨(u, info), hin, by simp⟩
    obtain ⟨e, hf⟩ := Option.isSome_iff_exists.1 hsome
    have hg : get_keyset_by_id (add_mint_keysets st u ks) info.id =
        some e.2 := by
      rw [get_keyset_by_id, hf, Option.map_some']
    exact ⟨e.2, hg, h1 _ _ _ hg⟩
  refine ⟨h1, h2, ?_⟩
  intro s w u ks info s' hw hmem ha
  rw [tx_apply_ok s w _ hw] at ha
  have hs' : s' = ⟨s.committed, some (add_mint_keysets w u ks)⟩ := by
    injection ha with h
    exact h.symm
  subst hs'
  obtain ⟨r, hr, hrid⟩ := h2 w u ks info hmem
  constructor
  · refine ⟨r, ?_, hrid⟩
    show Except.ok (get_keyset_by_id (add_mint_keysets w u ks) info.id) =
      .ok (some r)
    rw [hr]
  · intro s'' hc
    rw [commit_ok _ _ rfl] at hc
    have hs'' : s'' = ⟨add_mint_keysets w u ks, none⟩ := by
      injection hc with h
      exact h.symm
    subst hs''
    exact ⟨r, hr, hrid⟩

/-- Witness for C10 at a concrete stored keyset. -/
theorem c10_keyset_lookup_consistent_witness :
    ∃ r, get_keyset_by_id (add_mint_keysets emptyState "m"
        [⟨"004146bdf4a9afab", "sat", true, 0⟩]) "004146bdf4a9afab" =
      some r ∧ r.id = "004146bdf4a9afab" :=
  c10_keyset_lookup_consistent.2.1 emptyState "m"
    [⟨"004146bdf4a9afab", "sat", true, 0⟩]
    ⟨"004146bdf4a9afab", "sat", true, 0⟩ (by simp)

end Cdk
